import Mathlib

/-!
Verification of the tree-to-table extraction core of the Smári DX annual
survey plotter.  The Python source (`app.py`) is shallowly embedded:

* `JVal` models the JSON-shaped payload values Python's `json` module
  produces (`None`, booleans, integers, strings, dicts, lists).
* `build_id_map`, `find_t`, `extract_table` and `get_col` are direct
  translations of the functions of the same names in the source; Python
  dict mutation becomes explicit accumulator passing, Python `str()`
  becomes `pyStr`, Python truthiness becomes `pyTruthy`, and a Python
  call that would raise is modelled as `Option.none` at the boundary
  where the exception would escape.
* `pd.DataFrame(rows)` and `.apply(pd.to_numeric, errors=ignore)` are
  modelled by `mkDataFrame` and `coerceDf` over an explicit `DataFrame`
  structure (row count plus ordered named columns of cells).
-/

/-- JSON-shaped values as seen by the Python runtime: `null`/`None`,
booleans, (integer) numbers, strings, keyed records (dicts in key-insertion
order) and ordered lists. -/
inductive JVal where
  | null
  | jbool (b : Bool)
  | jnum (n : Int)
  | jstr (s : String)
  | obj (fields : List (String × JVal))
  | arr (items : List JVal)

/-- Field list of a keyed record (a Python dict in insertion order). -/
abbrev JObj := List (String × JVal)

mutual

/-- Structural (boolean) equality on `JVal`. -/
def jeq : JVal → JVal → Bool
  | .null, .null => true
  | .jbool a, .jbool b => a == b
  | .jnum a, .jnum b => a == b
  | .jstr a, .jstr b => a == b
  | .obj a, .obj b => jeqF a b
  | .arr a, .arr b => jeqL a b
  | _, _ => false

/-- Structural equality on record field lists. -/
def jeqF : List (String × JVal) → List (String × JVal) → Bool
  | [], [] => true
  | (k1, v1) :: r1, (k2, v2) :: r2 => k1 == k2 && jeq v1 v2 && jeqF r1 r2
  | _, _ => false

/-- Structural equality on value lists. -/
def jeqL : List JVal → List JVal → Bool
  | [], [] => true
  | v1 :: r1, v2 :: r2 => jeq v1 v2 && jeqL r1 r2
  | _, _ => false

end

mutual

theorem jeq_iff : ∀ a b : JVal, jeq a b = true ↔ a = b
  | .null, b => by cases b <;> simp [jeq]
  | .jbool a, b => by cases b <;> simp [jeq]
  | .jnum a, b => by cases b <;> simp [jeq]
  | .jstr a, b => by cases b <;> simp [jeq]
  | .obj a, b => by
      cases b <;> simp [jeq]
      exact jeqF_iff a _
  | .arr a, b => by
      cases b <;> simp [jeq]
      exact jeqL_iff a _

theorem jeqF_iff : ∀ a b : List (String × JVal), jeqF a b = true ↔ a = b
  | [], b => by cases b <;> simp [jeqF]
  | (k1, v1) :: r1, [] => by simp [jeqF]
  | (k1, v1) :: r1, (k2, v2) :: r2 => by
      simp [jeqF, jeq_iff v1 v2, jeqF_iff r1 r2, and_assoc]

theorem jeqL_iff : ∀ a b : List JVal, jeqL a b = true ↔ a = b
  | [], b => by cases b <;> simp [jeqL]
  | v1 :: r1, [] => by simp [jeqL]
  | v1 :: r1, v2 :: r2 => by
      simp [jeqL, jeq_iff v1 v2, jeqL_iff r1 r2]

end

instance : DecidableEq JVal := fun a b => decidable_of_iff _ (jeq_iff a b)

mutual

/-- Python `repr` on JSON-shaped values (`repr(None) = "None"`, strings
quoted, dicts and lists rendered element-wise). -/
def pyRepr : JVal → String
  | .null => "None"
  | .jbool true => "True"
  | .jbool false => "False"
  | .jnum n => toString n
  | .jstr s => "\x27" ++ s ++ "\x27"
  | .obj f => "\x7b" ++ String.intercalate ", " (pyReprF f) ++ "\x7d"
  | .arr l => "[" ++ String.intercalate ", " (pyReprL l) ++ "]"

/-- Renders each dict entry as `repr(key): repr(value)`. -/
def pyReprF : List (String × JVal) → List String
  | [] => []
  | (k, v) :: rest => ("\x27" ++ k ++ "\x27: " ++ pyRepr v) :: pyReprF rest

/-- Renders each list item with `pyRepr`. -/
def pyReprL : List JVal → List String
  | [] => []
  | v :: rest => pyRepr v :: pyReprL rest

end

/-- Python `str()`: the string itself for strings, `repr` otherwise
(in particular `str(None) = "None"`). -/
def pyStr : JVal → String
  | .jstr s => s
  | v => pyRepr v

/-- Python truthiness of a JSON-shaped value: `None`, `False`, `0`, the
empty string, the empty dict and the empty list are falsy. -/
def pyTruthy : JVal → Bool
  | .null => false
  | .jbool b => b
  | .jnum n => !(n == 0)
  | .jstr s => !(s == "")
  | .obj f => !f.isEmpty
  | .arr l => !l.isEmpty

/-- Association-list lookup by string key: models Python `d.get(key)`
(and `key in d` via `Option.isSome`) on a dict held in insertion order. -/
def alistGet {α : Type} : List (String × α) → String → Option α
  | [], _ => none
  | (k, v) :: rest, key => if k = key then some v else alistGet rest key

/-- The id→record index built by `build_id_map`: most recent insertion
first, so `alistGet` sees the last write. -/
abbrev IdMap := List (String × JObj)

mutual

/-- Translation of the recursive `index` closure of `build_id_map`:
on a dict, insert `str(obj[id]) -> obj` when the key `id` is present,
then recurse into the dict's values in order; on a list, recurse into the
items in order; other shapes are skipped. -/
def bimV : IdMap → JVal → IdMap
  | m, .obj fields =>
      bimF (match alistGet fields "id" with
            | some idv => (pyStr idv, fields) :: m
            | none => m) fields
  | m, .arr items => bimL m items
  | m, _ => m

/-- Visits the values of a dict's fields in insertion order. -/
def bimF : IdMap → List (String × JVal) → IdMap
  | m, [] => m
  | m, (_, v) :: rest => bimF (bimV m v) rest

/-- Visits the items of a list in order. -/
def bimL : IdMap → List JVal → IdMap
  | m, [] => m
  | m, v :: rest => bimL (bimV m v) rest

end

/-- Translation of `build_id_map(raw_json)`. -/
def build_id_map (raw : JVal) : IdMap := bimV [] raw

mutual

/-- Translation of the `find_t` closure of `extract_table`: on a dict,
return it when its `variableId` is present, non-null and stringifies to
the requested identifier, else search its values in order; on a list,
search the items in order.  (The Python `if r: return r` truthiness test
is equivalent to an `Option` match here: any returned record contains a
non-null `variableId` field and is therefore a non-empty, truthy dict.) -/
def findT (tvid : String) : JVal → Option JObj
  | .obj fields =>
      match alistGet fields "variableId" with
      | some v =>
          if v ≠ JVal.null ∧ pyStr v = tvid then some fields
          else findTF tvid fields
      | none => findTF tvid fields
  | .arr items => findTL tvid items
  | _ => none

/-- First match over a dict's field values, in insertion order. -/
def findTF (tvid : String) : List (String × JVal) → Option JObj
  | [] => none
  | (_, v) :: rest =>
      match findT tvid v with
      | some r => some r
      | none => findTF tvid rest

/-- First match over a list's items, in order. -/
def findTL (tvid : String) : List JVal → Option JObj
  | [] => none
  | v :: rest =>
      match findT tvid v with
      | some r => some r
      | none => findTL tvid rest

end

/-- Entry point of the locator, argument order as in the source. -/
def find_t (raw : JVal) (tvid : String) : Option JObj := findT tvid raw

mutual

/-- All keyed records of a value in pre-order (a record before the records
nested in its field values; dict fields and list items in order).  This is
exactly the visit order of `bimV` and the search order of `findT`. -/
def recordsOf : JVal → List JObj
  | .obj fields => fields :: recordsF fields
  | .arr items => recordsL items
  | _ => []

/-- Records of a dict's field values, in insertion order. -/
def recordsF : List (String × JVal) → List JObj
  | [] => []
  | (_, v) :: rest => recordsOf v ++ recordsF rest

/-- Records of a list's items, in order. -/
def recordsL : List JVal → List JObj
  | [] => []
  | v :: rest => recordsOf v ++ recordsL rest

end

/-- A row under construction: a Python dict keyed by column name (values
resolved from the index), in insertion order. -/
abbrev PyDict := List (JVal × JVal)

/-- Hashability of a Python value: lists and dicts are unhashable and
raise `TypeError` when used as dict keys; `None`, booleans, numbers and
strings are hashable. -/
def hashable : JVal → Bool
  | .obj _ => false
  | .arr _ => false
  | _ => true

/-- Normal form of a dict key under Python key identity: `True == 1` and
`False == 0` hash and compare equal, so boolean keys normalize to their
integer value; every other value is its own normal form. -/
def normKey : JVal → JVal
  | .jbool b => .jnum (if b then 1 else 0)
  | v => v

/-- Python dict key identity: equality of normal forms (so `True` and `1`
denote the same key, while values of unrelated kinds never collide). -/
def pyKeyEq (a b : JVal) : Bool := normKey a == normKey b

/-- Python dict lookup on a row, comparing keys by Python key identity. -/
def pyGet : PyDict → JVal → Option JVal
  | [], _ => none
  | (k, v) :: rest, key => if pyKeyEq k key then some v else pyGet rest key

/-- The write a successful Python dict assignment performs: overwrite in
place when an identical key exists — keeping the originally stored key
object and its position, as dicts do — else append the new binding. -/
def pySetKey : PyDict → JVal → JVal → PyDict
  | [], key, val => [(key, val)]
  | (k, v) :: rest, key, val =>
      if pyKeyEq k key then (k, val) :: rest else (k, v) :: pySetKey rest key val

/-- Python dict assignment `d[key] = val`: raises `TypeError` (modelled as
`none`) when the key is unhashable (a list or dict), else performs the
write. -/
def pySet (d : PyDict) (key val : JVal) : Option PyDict :=
  if hashable key then some (pySetKey d key val) else none

/-- Requires every `childValues` item to be a dict, as the row loop's
`cv.get(...)` calls do; a non-dict item makes the Python loop raise, which
is modelled as `none`. -/
def allObjs : List JVal → Option (List JObj)
  | [] => some []
  | .obj f :: rest => (allObjs rest).map (f :: ·)
  | _ :: _ => none

/-- Translation of `cvs = table_node.get(childValues, [])` followed by the
iterations over `cvs`: an absent key yields the empty list; a present list
yields its items (all of which must be dicts); iterating an empty string
or empty dict also yields nothing; every other shape makes the first
iteration or `cv.get` call raise, modelled as `none`. -/
def getEntriesE (tn : JObj) : Option (List JObj) :=
  match alistGet tn "childValues" with
  | none => some []
  | some (.arr items) => allObjs items
  | some (.jstr "") => some []
  | some (.obj []) => some []
  | some _ => none

/-- Translation of `str(cv.get(variableId))`: the stringified identifier
of one `childValues` entry, `"None"` when the key is absent or null. -/
def entryVid (cv : JObj) : String := pyStr ((alistGet cv "variableId").getD JVal.null)

/-- Translation of the `unique_vids` loop: distinct stringified variable
identifiers in first-occurrence order, skipping the literal `"None"`. -/
def uniqueVidsOf (cvs : List JObj) : List String :=
  cvs.foldl (fun acc cv =>
    if entryVid cv ∉ acc ∧ entryVid cv ≠ "None" then acc ++ [entryVid cv] else acc) []

/-- Translation of `occ = [cv for cv in cvs if str(cv.get(variableId)) == vid]`. -/
def occs (cvs : List JObj) (vid : String) : List JObj :=
  cvs.filter (fun cv => entryVid cv = vid)

/-- Translation of `id_map.get(str(occ[i].get(valueId)))`. -/
def resolveNode (id_map : IdMap) (cv : JObj) : Option JObj :=
  alistGet id_map (pyStr ((alistGet cv "valueId").getD JVal.null))

/-- Translation of the row key `node.get(variableName) or vid`: the
`variableName` field when truthy, else the raw identifier string. -/
def colKeyOf (node : JObj) (vid : String) : JVal :=
  if pyTruthy ((alistGet node "variableName").getD JVal.null)
  then (alistGet node "variableName").getD JVal.null
  else .jstr vid

/-- Translation of the stored cell `node.get(value)` (`None` when absent). -/
def valueOfNode (node : JObj) : JVal := (alistGet node "value").getD JVal.null

/-- Translation of the body of the inner row loop, for one distinct
identifier: look up its `i`-th occurrence (the `if i < len(occ)` guard is
the `[i]?` match), resolve the occurrence's `valueId` through the index,
and when a truthy node is found assign the resolved column key in the row
dict — an assignment that raises (`none`) when the resolved key is an
unhashable list or dict, as `row_data[...] = ...` does. -/
def rowStep (cvs : List JObj) (id_map : IdMap) (i : Nat) (rowData : PyDict) (vid : String) :
    Option PyDict :=
  match (occs cvs vid)[i]? with
  | some e =>
      match resolveNode id_map e with
      | some node =>
          if node.isEmpty then some rowData
          else pySet rowData (colKeyOf node vid) (valueOfNode node)
      | none => some rowData
  | none => some rowData

/-- Runs the inner row loop over the remaining identifiers; a raise in an
assignment escapes the whole loop. -/
def buildRowGo (cvs : List JObj) (id_map : IdMap) (i : Nat) :
    PyDict → List String → Option PyDict
  | d, [] => some d
  | d, vid :: rest =>
      match rowStep cvs id_map i d vid with
      | some d2 => buildRowGo cvs id_map i d2 rest
      | none => none

/-- Translation of one iteration of the outer row loop: run the inner
loop over the distinct identifiers in order, starting from the empty
`row_data` dict; `none` when an assignment raised. -/
def buildRow (cvs : List JObj) (id_map : IdMap) (uvids : List String) (i : Nat) :
    Option PyDict :=
  buildRowGo cvs id_map i [] uvids

/-- Translation of the outer row loop over the given row indices: append
each completed row; a raise inside any row escapes the whole loop. -/
def buildRowsM (cvs : List JObj) (id_map : IdMap) (uvids : List String) :
    List Nat → Option (List PyDict)
  | [] => some []
  | i :: rest =>
      match buildRow cvs id_map uvids i with
      | some r => (buildRowsM cvs id_map uvids rest).map (r :: ·)
      | none => none

/-- Cell of a tabular dataset: missing (`NaN`), an original scalar, or a
numerically coerced value. -/
inductive Cell where
  | na
  | orig (v : JVal)
  | numQ (q : ℚ)
deriving DecidableEq

/-- Decimal digit run to a natural number. -/
def digitsVal (cs : List Char) : Nat := cs.foldl (fun a c => a * 10 + (c.toNat - 48)) 0

/-- Unsigned decimal literal: digits with an optional fractional part
(at least one digit overall); the value is an exact rational. -/
def parseUnsigned (cs : List Char) : Option ℚ :=
  match cs.dropWhile Char.isDigit with
  | [] => if (cs.takeWhile Char.isDigit).isEmpty then none
          else some (mkRat (digitsVal (cs.takeWhile Char.isDigit)) 1)
  | c :: frac =>
      if c = '.' ∧ frac.all Char.isDigit ∧ (cs.takeWhile Char.isDigit ≠ [] ∨ frac ≠ []) then
        some (mkRat (digitsVal (cs.takeWhile Char.isDigit) * 10 ^ frac.length + digitsVal frac)
                    (10 ^ frac.length))
      else none

/-- Model of the numeric parse `pd.to_numeric` applies to one string:
an optional sign followed by an unsigned decimal literal. -/
def pyParseNum (s : String) : Option ℚ :=
  match s.toList with
  | [] => none
  | c :: rest =>
      if c = '-' then (parseUnsigned rest).map (fun q => -q)
      else if c = '+' then parseUnsigned rest
      else parseUnsigned (c :: rest)

/-- Model of `pd.to_numeric` on one cell: missing stays missing, `None`
becomes missing, numbers and booleans coerce, strings parse via
`pyParseNum`, and containers fail. -/
def parseCell : Cell → Option Cell
  | .na => some .na
  | .orig .null => some .na
  | .orig (.jnum n) => some (.numQ (mkRat n 1))
  | .orig (.jbool b) => some (.numQ (mkRat (if b then 1 else 0) 1))
  | .orig (.jstr s) => (pyParseNum s).map .numQ
  | .orig (.obj _) => none
  | .orig (.arr _) => none
  | .numQ q => some (.numQ q)

/-- Model of `pd.to_numeric(column, errors=ignore)`: when every cell of
the column parses, replace each cell by its parse; otherwise return the
column unchanged. -/
def coerceColumn (cells : List Cell) : List Cell :=
  if cells.all (fun c => (parseCell c).isSome)
  then cells.map (fun c => (parseCell c).getD c)
  else cells

/-- A pandas DataFrame: a row count together with the ordered named
columns, each carrying one cell per row. -/
structure DataFrame where
  nrows : Nat
  cols : List (JVal × List Cell)
deriving DecidableEq

/-- The empty `pd.DataFrame()`: zero rows and zero columns. -/
def emptyDF : DataFrame := ⟨0, []⟩

/-- Distinct keys in first-occurrence order under Python key identity
(pandas column order for a list of row dicts; `True` and `1` are one
column). -/
def dedupFirstKeys : List JVal → List JVal
  | [] => []
  | k :: rest => k :: (dedupFirstKeys rest).filter (fun x => !pyKeyEq x k)

/-- Cell obtained from an optional row value: present values are kept as
original scalars, an absent key becomes a missing cell. -/
def cellOf : Option JVal → Cell
  | some v => Cell.orig v
  | none => Cell.na

/-- Model of `pd.DataFrame(rows)` on a list of row dicts: one row per
dict; the columns are the distinct row keys in first-appearance order; a
row without a given key gets a missing cell. -/
def mkDataFrame (rows : List PyDict) : DataFrame :=
  ⟨rows.length,
   (dedupFirstKeys ((rows.map (fun r => r.map Prod.fst)).flatten)).map
     (fun k => (k, rows.map (fun r => cellOf (pyGet r k))))⟩

/-- Model of `df.apply(pd.to_numeric, errors=ignore)`: per-column
best-effort numeric coercion. -/
def coerceDf (df : DataFrame) : DataFrame :=
  ⟨df.nrows, df.cols.map (fun p => (p.1, coerceColumn p.2))⟩

/-- The body of `extract_table` after the table node is located and its
`childValues` entries are in hand: distinct identifiers, row count from
the first one, row assembly (which may raise), DataFrame construction and
coercion. -/
def reconstructCore (cvs : List JObj) (id_map : IdMap) : Option DataFrame :=
  match uniqueVidsOf cvs with
  | [] => some emptyDF
  | v0 :: _ =>
      (buildRowsM cvs id_map (uniqueVidsOf cvs) (List.range (occs cvs v0).length)).map
        (fun rows => coerceDf (mkDataFrame rows))

/-- Translation of `extract_table(raw_json, id_map, table_vid_str)`;
`none` models the call raising, on a malformed `childValues` or on an
unhashable resolved column key inside the row loop. -/
def extract_table (raw : JVal) (id_map : IdMap) (tvid : String) : Option DataFrame :=
  match find_t raw tvid with
  | none => some emptyDF
  | some tn =>
      if tn.isEmpty then some emptyDF
      else
        match getEntriesE tn with
        | none => none
        | some cvs => reconstructCore cvs id_map

/-- Lower-cased character sequence of a string (Python `s.lower()` over
the ASCII range). -/
def lowerChars (s : String) : List Char := s.toList.map Char.toLower

/-- Substring containment (Python `needle in hay` on strings). -/
def infixOfCh : List Char → List Char → Bool
  | needle, [] => needle.isEmpty
  | needle, c :: rest => needle.isPrefixOf (c :: rest) || infixOfCh needle rest

/-- Case-insensitive containment `substring.lower() in str(col).lower()`. -/
def strInCI (needle hay : String) : Bool := infixOfCh (lowerChars needle) (lowerChars hay)

/-- The column scan of `get_col`: first column whose stringified name
contains the fragment case-insensitively. -/
def getColGo (substring : String) : List (JVal × List Cell) → Option JVal
  | [] => none
  | (k, _) :: rest => if strInCI substring (pyStr k) then some k else getColGo substring rest

/-- Translation of `get_col(df, substring)`. -/
def get_col (df : DataFrame) (substring : String) : Option JVal :=
  getColGo substring df.cols

/-- Stringified identifier a record is indexed under, when the key `id`
is present (`key in obj` semantics: a null value still counts). -/
def idKeyOf (f : JObj) : Option String := (alistGet f "id").map pyStr

/-- The last record of a list whose index key is `k` (last-visited-wins
reference result for the Indexer). -/
def lastIdRec (l : List JObj) (k : String) : Option JObj :=
  (l.filter (fun f => idKeyOf f = some k)).getLast?

/-- The matching test the source's `find_t` applies to a record: the
`variableId` key is present, its value is non-null (Python
`vid is not None`, where an absent key and a null value both read back as
`None`), and its string form equals the requested identifier. -/
def vidMatches (tvid : String) (f : JObj) : Bool :=
  match alistGet f "variableId" with
  | some v => decide (v ≠ JVal.null ∧ pyStr v = tvid)
  | none => false

/-- The matching test stated by the specification sentence for the
locator: the `variableId` field, converted to string, equals the
requested identifier (no non-null condition). -/
def specVidMatches (tvid : String) (f : JObj) : Bool :=
  match alistGet f "variableId" with
  | some v => decide (pyStr v = tvid)
  | none => false

/-- The locator the specification sentence describes: the first record in
pre-order whose `variableId`, converted to string, equals the request. -/
def specFindTable (raw : JVal) (tvid : String) : Option JObj :=
  (recordsOf raw).find? (specVidMatches tvid)

/-- The (column key, cell value) pair the row loop would assign for one
distinct identifier at row `i`, when its `i`-th occurrence exists, its
`valueId` resolves, and the resolved node is truthy. -/
def rowWriteOf (cvs : List JObj) (id_map : IdMap) (i : Nat) (vid : String) :
    Option (JVal × JVal) :=
  match (occs cvs vid)[i]? with
  | some e =>
      match resolveNode id_map e with
      | some node =>
          if node.isEmpty then none
          else some (colKeyOf node vid, valueOfNode node)
      | none => none
  | none => none

/-- One step of the reference (raise-free) row assembly: perform the
identifier's write when there is one, with no hashability check. -/
def rowStepRef (cvs : List JObj) (id_map : IdMap) (i : Nat) (d : PyDict) (vid : String) :
    PyDict :=
  match rowWriteOf cvs id_map i vid with
  | some kv => pySetKey d kv.1 kv.2
  | none => d

/-- Reference result of row `i`: the row the loop produces when none of
its assignments raises. -/
def buildRowRef (cvs : List JObj) (id_map : IdMap) (uvids : List String) (i : Nat) : PyDict :=
  uvids.foldl (rowStepRef cvs id_map i) []

/-- The value held, at row `i`, by column key `k` after the writes of the
given identifiers: the value of the last identifier in order whose write
targets a key identical to `k` under Python key identity. -/
def lastWriteAt (cvs : List JObj) (id_map : IdMap) (i : Nat)
    (uvids : List String) (k : JVal) : Option JVal :=
  (((uvids.filterMap (rowWriteOf cvs id_map i)).filter
      (fun p => pyKeyEq p.1 k)).getLast?).map Prod.snd

/-- Distinct strings in first-occurrence order: the reference result the
specification describes for the `unique_vids` loop (before exclusion of
the absent marker, which is applied to the input list). -/
def dedupFirstStr : List String → List String
  | [] => []
  | s :: rest => s :: (dedupFirstStr rest).filter (fun x => x ≠ s)


/-- Witness payload: child-reference entry with the given `variableId`
and `valueId` numbers. -/
def wCvF (vid val : Int) : JObj := [("variableId", .jnum vid), ("valueId", .jnum val)]

/-- Witness payload: the five child references of the witness table
(column 101 three times, column 102 twice, interleaved). -/
def wEntries : List JObj := [wCvF 101 1, wCvF 102 11, wCvF 101 2, wCvF 102 12, wCvF 101 3]

/-- Witness payload: the fields of the table record with identifier 20254. -/
def wTableFields : JObj :=
  [("variableId", .jnum 20254), ("childValues", .arr (wEntries.map JVal.obj))]

/-- Witness payload: a value node carrying a `variableName`. -/
def wNodeNamed (i : Int) (name : String) (value : JVal) : JVal :=
  .obj [("id", .jnum i), ("variableName", .jstr name), ("value", value)]

/-- Witness payload: a value node without a `variableName`. -/
def wNodePlain (i : Int) (value : JVal) : JVal :=
  .obj [("id", .jnum i), ("value", value)]

/-- Witness payload: one table (20254) with three occurrences of column
101 (resolving to nodes named A) and two of column 102 (unnamed nodes),
plus the referenced value nodes as siblings. -/
def wPayload : JVal :=
  .arr [.obj wTableFields,
    wNodeNamed 1 "A" (.jstr "a1"), wNodeNamed 2 "A" (.jstr "a2"), wNodeNamed 3 "A" (.jstr "a3"),
    wNodePlain 11 (.jstr "b1"), wNodePlain 12 (.jstr "b2")]

/-- Counterexample payload for the locator claim: a single record whose
`variableId` is null.  Python renders `str(None)` as `"None"`, but the
source guard `vid is not None` rejects the record before the string
comparison. -/
def cexNullVid : JVal := .obj [("variableId", JVal.null)]

/-- Column layout of the Column Resolver example (two columns, no rows). -/
def wKvDf : DataFrame :=
  ⟨0, [(.jstr "Nominal kVp", []), (.jstr "Measured HVL", [])]⟩

/-- State-passing form of `build_id_map`: the source only reads the
payload (every access is `obj.get`, `obj.values`, or list iteration) and
writes only its local accumulator, so the translation returns the payload
state unchanged alongside the new index. -/
def build_id_map_st (raw : JVal) : JVal × IdMap := (raw, build_id_map raw)

/-- State-passing form of `extract_table`: the source reads the payload
and the index (only via `id_map.get`) and mutates only its local
`rows`/`row_data` accumulators, so the translation returns both input
states unchanged alongside the resulting dataset. -/
def extract_table_st (raw : JVal) (id_map : IdMap) (tvid : String) :
    (JVal × IdMap) × Option DataFrame :=
  ((raw, id_map), extract_table raw id_map tvid)

/-! ### Generic helper lemmas -/

theorem getLast?_append_or {α : Type} (a b : List α) :
    (a ++ b).getLast? = b.getLast?.or a.getLast? := by
  cases b with
  | nil => simp
  | cons x xs =>
      rw [List.getLast?_append_of_ne_nil a (List.cons_ne_nil x xs)]
      rcases Option.isSome_iff_exists.mp
        (List.getLast?_isSome.mpr (List.cons_ne_nil x xs)) with ⟨y, hy⟩
      rw [hy]
      rfl

theorem getLast?_cons_or {α : Type} (x : α) (l : List α) :
    (x :: l).getLast? = l.getLast?.or (some x) := by
  simpa using getLast?_append_or [x] l

theorem find?_first_characterization {α : Type} (p : α → Bool) :
    ∀ l : List α, ∀ b : α,
      l.find? p = some b ↔ ∃ l1 l2, l = l1 ++ b :: l2 ∧ p b = true ∧ ∀ x ∈ l1, p x = false
  | [], b => by simp
  | x :: rest, b => by
      constructor
      · intro h
        by_cases hx : p x
        · rw [List.find?_cons_of_pos _ hx] at h
          obtain rfl : x = b := by injection h
          exact ⟨[], rest, rfl, hx, by simp⟩
        · rw [List.find?_cons_of_neg _ hx] at h
          rcases (find?_first_characterization p rest b).mp h with ⟨l1, l2, he, hb, hnone⟩
          refine ⟨x :: l1, l2, by simp [he], hb, ?_⟩
          intro y hy
          rcases List.mem_cons.mp hy with rfl | hy
          · simpa using hx
          · exact hnone y hy
      · rintro ⟨l1, l2, he, hb, hnone⟩
        cases l1 with
        | nil =>
            simp only [List.nil_append] at he
            cases he
            exact List.find?_cons_of_pos _ hb
        | cons y l1 =>
            simp only [List.cons_append, List.cons.injEq] at he
            rcases he with ⟨rfl, he⟩
            rw [List.find?_cons_of_neg _ (by simp [hnone x (by simp)])]
            exact (find?_first_characterization p rest b).mpr
              ⟨l1, l2, he, hb, fun z hz => hnone z (by simp [hz])⟩

/-! ### Characterization of the Indexer -/

theorem lastIdRec_append (a b : List JObj) (k : String) :
    lastIdRec (a ++ b) k = (lastIdRec b k).or (lastIdRec a k) := by
  unfold lastIdRec
  rw [List.filter_append, getLast?_append_or]

mutual

theorem bimV_get : ∀ (v : JVal) (m : IdMap) (k : String),
    alistGet (bimV m v) k = (lastIdRec (recordsOf v) k).or (alistGet m k)
  | .null, m, k => by simp [bimV, recordsOf, lastIdRec]
  | .jbool b, m, k => by simp [bimV, recordsOf, lastIdRec]
  | .jnum n, m, k => by simp [bimV, recordsOf, lastIdRec]
  | .jstr s, m, k => by simp [bimV, recordsOf, lastIdRec]
  | .arr items, m, k => by
      rw [show bimV m (.arr items) = bimL m items from rfl,
          show recordsOf (.arr items) = recordsL items from rfl]
      exact bimL_get items m k
  | .obj fields, m, k => by
      rw [show bimV m (.obj fields)
            = bimF (match alistGet fields "id" with
                    | some idv => (pyStr idv, fields) :: m
                    | none => m) fields from rfl,
          show recordsOf (.obj fields) = fields :: recordsF fields from rfl,
          bimF_get fields _ k]
      have hcons : lastIdRec (fields :: recordsF fields) k
          = (lastIdRec (recordsF fields) k).or
              (if idKeyOf fields = some k then some fields else none) := by
        unfold lastIdRec
        rw [List.filter_cons]
        by_cases hid : idKeyOf fields = some k
        · rw [if_pos (by simp [hid]), getLast?_cons_or, if_pos hid]
        · rw [if_neg (by simp [hid]), if_neg hid, Option.or_none]
      rw [hcons, Option.or_assoc]
      congr 1
      cases hidv : alistGet fields "id" with
      | none =>
          have : idKeyOf fields ≠ some k := by simp [idKeyOf, hidv]
          simp [this]
      | some idv =>
          by_cases hk : pyStr idv = k
          · have : idKeyOf fields = some k := by simp [idKeyOf, hidv, hk]
            simp only [this, if_true]
            simp [alistGet, hk]
          · have : idKeyOf fields ≠ some k := by simp [idKeyOf, hidv, hk]
            simp only [this, if_false]
            simp [alistGet, hk]

theorem bimF_get : ∀ (f : List (String × JVal)) (m : IdMap) (k : String),
    alistGet (bimF m f) k = (lastIdRec (recordsF f) k).or (alistGet m k)
  | [], m, k => by simp [bimF, recordsF, lastIdRec]
  | (s, v) :: rest, m, k => by
      rw [show bimF m ((s, v) :: rest) = bimF (bimV m v) rest from rfl,
          show recordsF ((s, v) :: rest) = recordsOf v ++ recordsF rest from rfl,
          bimF_get rest _ k, bimV_get v m k, lastIdRec_append, Option.or_assoc]

theorem bimL_get : ∀ (l : List JVal) (m : IdMap) (k : String),
    alistGet (bimL m l) k = (lastIdRec (recordsL l) k).or (alistGet m k)
  | [], m, k => by simp [bimL, recordsL, lastIdRec]
  | v :: rest, m, k => by
      rw [show bimL m (v :: rest) = bimL (bimV m v) rest from rfl,
          show recordsL (v :: rest) = recordsOf v ++ recordsL rest from rfl,
          bimL_get rest _ k, bimV_get v m k, lastIdRec_append, Option.or_assoc]

end

theorem build_id_map_get (raw : JVal) (k : String) :
    alistGet (build_id_map raw) k = lastIdRec (recordsOf raw) k := by
  rw [show build_id_map raw = bimV [] raw from rfl, bimV_get raw [] k]
  simp [alistGet]

/-! ### Characterization of the Table Locator -/


mutual

theorem findT_eq : ∀ (tvid : String) (v : JVal),
    findT tvid v = (recordsOf v).find? (vidMatches tvid)
  | tvid, .null => by simp [findT, recordsOf]
  | tvid, .jbool b => by simp [findT, recordsOf]
  | tvid, .jnum n => by simp [findT, recordsOf]
  | tvid, .jstr s => by simp [findT, recordsOf]
  | tvid, .arr items => by
      rw [show findT tvid (.arr items) = findTL tvid items from rfl,
          show recordsOf (.arr items) = recordsL items from rfl]
      exact findTL_eq tvid items
  | tvid, .obj fields => by
      rw [show recordsOf (.obj fields) = fields :: recordsF fields from rfl]
      by_cases hm : vidMatches tvid fields
      · rw [List.find?_cons_of_pos _ hm]
        rw [show findT tvid (.obj fields)
              = (match alistGet fields "variableId" with
                 | some v =>
                     if v ≠ JVal.null ∧ pyStr v = tvid then some fields
                     else findTF tvid fields
                 | none => findTF tvid fields) from rfl]
        unfold vidMatches at hm
        cases hv : alistGet fields "variableId" with
        | none => rw [hv] at hm; simp at hm
        | some v =>
            rw [hv] at hm
            simp only [decide_eq_true_eq] at hm
            simp [hm]
      · rw [List.find?_cons_of_neg _ hm]
        rw [show findT tvid (.obj fields)
              = (match alistGet fields "variableId" with
                 | some v =>
                     if v ≠ JVal.null ∧ pyStr v = tvid then some fields
                     else findTF tvid fields
                 | none => findTF tvid fields) from rfl]
        unfold vidMatches at hm
        cases hv : alistGet fields "variableId" with
        | none => simp only [hv]; exact findTF_eq tvid fields
        | some v =>
            rw [hv] at hm
            simp only [decide_eq_true_eq] at hm
            simp only [hv, if_neg hm]
            exact findTF_eq tvid fields

theorem findTF_eq : ∀ (tvid : String) (f : List (String × JVal)),
    findTF tvid f = (recordsF f).find? (vidMatches tvid)
  | tvid, [] => by simp [findTF, recordsF]
  | tvid, (s, v) :: rest => by
      rw [show recordsF ((s, v) :: rest) = recordsOf v ++ recordsF rest from rfl,
          List.find?_append,
          show findTF tvid ((s, v) :: rest)
            = (match findT tvid v with
               | some r => some r
               | none => findTF tvid rest) from rfl,
          findT_eq tvid v, findTF_eq tvid rest]
      cases (recordsOf v).find? (vidMatches tvid) <;> rfl

theorem findTL_eq : ∀ (tvid : String) (l : List JVal),
    findTL tvid l = (recordsL l).find? (vidMatches tvid)
  | tvid, [] => by simp [findTL, recordsL]
  | tvid, v :: rest => by
      rw [show recordsL (v :: rest) = recordsOf v ++ recordsL rest from rfl,
          List.find?_append,
          show findTL tvid (v :: rest)
            = (match findT tvid v with
               | some r => some r
               | none => findTL tvid rest) from rfl,
          findT_eq tvid v, findTL_eq tvid rest]
      cases (recordsOf v).find? (vidMatches tvid) <;> rfl

end

theorem find_t_eq (raw : JVal) (tvid : String) :
    find_t raw tvid = (recordsOf raw).find? (vidMatches tvid) := findT_eq tvid raw


/-! ### Characterization of row assembly -/

theorem optionMap_or {α β : Type} (f : α → β) (a b : Option α) :
    (a.or b).map f = (a.map f).or (b.map f) := by
  cases a <;> rfl

theorem pyKeyEq_iff (a b : JVal) : pyKeyEq a b = true ↔ normKey a = normKey b := by
  unfold pyKeyEq
  exact beq_iff_eq

theorem pyKeyEq_refl (a : JVal) : pyKeyEq a a = true := (pyKeyEq_iff a a).mpr rfl

theorem pyGet_pySetKey (d : PyDict) (k v kk : JVal) :
    pyGet (pySetKey d k v) kk = if pyKeyEq kk k then some v else pyGet d kk := by
  induction d with
  | nil =>
      show (if pyKeyEq k kk then some v else pyGet [] kk)
        = if pyKeyEq kk k then some v else pyGet [] kk
      by_cases h : normKey kk = normKey k
      · rw [if_pos ((pyKeyEq_iff k kk).mpr h.symm), if_pos ((pyKeyEq_iff kk k).mpr h)]
      · rw [if_neg (fun hh => h ((pyKeyEq_iff k kk).mp hh).symm),
            if_neg (fun hh => h ((pyKeyEq_iff kk k).mp hh))]
  | cons p rest ih =>
      obtain ⟨pk, pv⟩ := p
      show pyGet (if pyKeyEq pk k then (pk, v) :: rest else (pk, pv) :: pySetKey rest k v) kk = _
      by_cases hpk : normKey pk = normKey k
      · rw [if_pos ((pyKeyEq_iff pk k).mpr hpk)]
        show (if pyKeyEq pk kk then some v else pyGet rest kk) = _
        by_cases h : normKey kk = normKey k
        · rw [if_pos ((pyKeyEq_iff pk kk).mpr (hpk.trans h.symm)),
              if_pos ((pyKeyEq_iff kk k).mpr h)]
        · rw [if_neg (fun hh => h (((pyKeyEq_iff pk kk).mp hh).symm.trans hpk)),
              if_neg (fun hh => h ((pyKeyEq_iff kk k).mp hh))]
          show pyGet rest kk = if pyKeyEq pk kk then some pv else pyGet rest kk
          rw [if_neg (fun hh => h (((pyKeyEq_iff pk kk).mp hh).symm.trans hpk))]
      · rw [if_neg (fun hh => hpk ((pyKeyEq_iff pk k).mp hh))]
        show (if pyKeyEq pk kk then some pv else pyGet (pySetKey rest k v) kk) = _
        by_cases h2 : normKey pk = normKey kk
        · have hkkk : ¬normKey kk = normKey k := fun hh => hpk (h2.trans hh)
          rw [if_pos ((pyKeyEq_iff pk kk).mpr h2),
              if_neg (fun hh => hkkk ((pyKeyEq_iff kk k).mp hh))]
          show some pv = if pyKeyEq pk kk then some pv else pyGet rest kk
          rw [if_pos ((pyKeyEq_iff pk kk).mpr h2)]
        · rw [if_neg (fun hh => h2 ((pyKeyEq_iff pk kk).mp hh)), ih]
          by_cases h3 : normKey kk = normKey k
          · rw [if_pos ((pyKeyEq_iff kk k).mpr h3), if_pos ((pyKeyEq_iff kk k).mpr h3)]
          · rw [if_neg (fun hh => h3 ((pyKeyEq_iff kk k).mp hh)),
                if_neg (fun hh => h3 ((pyKeyEq_iff kk k).mp hh))]
            show pyGet rest kk = if pyKeyEq pk kk then some pv else pyGet rest kk
            rw [if_neg (fun hh => h2 ((pyKeyEq_iff pk kk).mp hh))]

theorem rowStep_eq_write (cvs : List JObj) (id_map : IdMap) (i : Nat)
    (d : PyDict) (vid : String) :
    rowStep cvs id_map i d vid =
      match rowWriteOf cvs id_map i vid with
      | some kv => pySet d kv.1 kv.2
      | none => some d := by
  unfold rowStep rowWriteOf
  cases he : (occs cvs vid)[i]? with
  | none => simp only [he]
  | some e =>
      simp only [he]
      cases hr : resolveNode id_map e with
      | none => simp only [hr]
      | some node =>
          simp only [hr]
          by_cases h : node.isEmpty
          · simp only [if_pos h]
          · simp only [if_neg h]

theorem rowStep_write_none (cvs : List JObj) (id_map : IdMap) (i : Nat)
    (d : PyDict) (vid : String) (h : rowWriteOf cvs id_map i vid = none) :
    rowStep cvs id_map i d vid = some d := by
  rw [rowStep_eq_write, h]

theorem rowStep_write_some (cvs : List JObj) (id_map : IdMap) (i : Nat)
    (d : PyDict) (vid : String) (kv : JVal × JVal)
    (h : rowWriteOf cvs id_map i vid = some kv) :
    rowStep cvs id_map i d vid = pySet d kv.1 kv.2 := by
  rw [rowStep_eq_write, h]

theorem buildRowGo_some (cvs : List JObj) (id_map : IdMap) (i : Nat) :
    ∀ (uvids : List String) (d : PyDict),
      (∀ p ∈ uvids.filterMap (rowWriteOf cvs id_map i), hashable p.1) →
      buildRowGo cvs id_map i d uvids = some (uvids.foldl (rowStepRef cvs id_map i) d)
  | [], d, _ => rfl
  | vid :: rest, d, h => by
      rw [List.foldl_cons,
          show buildRowGo cvs id_map i d (vid :: rest)
            = (match rowStep cvs id_map i d vid with
               | some d2 => buildRowGo cvs id_map i d2 rest
               | none => none) from rfl]
      cases hw : rowWriteOf cvs id_map i vid with
      | none =>
          rw [rowStep_write_none cvs id_map i d vid hw,
              show rowStepRef cvs id_map i d vid = d by unfold rowStepRef; rw [hw]]
          exact buildRowGo_some cvs id_map i rest d (by
            intro p hp
            exact h p (by rw [List.filterMap_cons, hw]; exact hp))
      | some kv =>
          have hkv : hashable kv.1 := h kv (by rw [List.filterMap_cons, hw]; exact List.mem_cons_self kv _)
          rw [rowStep_write_some cvs id_map i d vid kv hw,
              show pySet d kv.1 kv.2 = some (pySetKey d kv.1 kv.2) by unfold pySet; rw [if_pos hkv],
              show rowStepRef cvs id_map i d vid = pySetKey d kv.1 kv.2 by unfold rowStepRef; rw [hw]]
          exact buildRowGo_some cvs id_map i rest (pySetKey d kv.1 kv.2) (by
            intro p hp
            exact h p (by rw [List.filterMap_cons, hw]; exact List.mem_cons_of_mem kv hp))

theorem buildRowGo_fail (cvs : List JObj) (id_map : IdMap) (i : Nat) :
    ∀ (uvids : List String) (d : PyDict) (p : JVal × JVal),
      p ∈ uvids.filterMap (rowWriteOf cvs id_map i) → ¬hashable p.1 →
      buildRowGo cvs id_map i d uvids = none
  | [], _, p, hp, _ => by simp at hp
  | vid :: rest, d, p, hp, hph => by
      rw [show buildRowGo cvs id_map i d (vid :: rest)
            = (match rowStep cvs id_map i d vid with
               | some d2 => buildRowGo cvs id_map i d2 rest
               | none => none) from rfl]
      cases hw : rowWriteOf cvs id_map i vid with
      | none =>
          rw [rowStep_write_none cvs id_map i d vid hw]
          rw [List.filterMap_cons, hw] at hp
          exact buildRowGo_fail cvs id_map i rest d p hp hph
      | some kv =>
          rw [rowStep_write_some cvs id_map i d vid kv hw]
          by_cases hkv : hashable kv.1
          · rw [show pySet d kv.1 kv.2 = some (pySetKey d kv.1 kv.2) by
                  unfold pySet; rw [if_pos hkv]]
            rw [List.filterMap_cons, hw] at hp
            rcases List.mem_cons.mp hp with rfl | hp2
            · exact absurd hkv hph
            · exact buildRowGo_fail cvs id_map i rest (pySetKey d kv.1 kv.2) p hp2 hph
          · rw [show pySet d kv.1 kv.2 = none by unfold pySet; rw [if_neg hkv]]

theorem buildRow_some (cvs : List JObj) (id_map : IdMap) (uvids : List String) (i : Nat)
    (h : ∀ p ∈ uvids.filterMap (rowWriteOf cvs id_map i), hashable p.1) :
    buildRow cvs id_map uvids i = some (buildRowRef cvs id_map uvids i) :=
  buildRowGo_some cvs id_map i uvids [] h

theorem buildRowsM_some (cvs : List JObj) (id_map : IdMap) (uvids : List String) :
    ∀ idxs : List Nat,
      (∀ i ∈ idxs, ∀ p ∈ uvids.filterMap (rowWriteOf cvs id_map i), hashable p.1) →
      buildRowsM cvs id_map uvids idxs = some (idxs.map (buildRowRef cvs id_map uvids))
  | [], _ => rfl
  | i :: rest, h => by
      rw [show buildRowsM cvs id_map uvids (i :: rest)
            = (match buildRow cvs id_map uvids i with
               | some r => (buildRowsM cvs id_map uvids rest).map (r :: ·)
               | none => none) from rfl,
          buildRow_some cvs id_map uvids i (h i (by simp)),
          buildRowsM_some cvs id_map uvids rest (fun j hj => h j (by simp [hj])), List.map_cons]
      rfl

theorem foldl_rowStepRef_get (cvs : List JObj) (id_map : IdMap) (i : Nat) :
    ∀ (uvids : List String) (d : PyDict) (k : JVal),
      pyGet (uvids.foldl (rowStepRef cvs id_map i) d) k =
        (lastWriteAt cvs id_map i uvids k).or (pyGet d k)
  | [], d, k => by simp [lastWriteAt]
  | vid :: rest, d, k => by
      rw [List.foldl_cons, foldl_rowStepRef_get cvs id_map i rest _ k]
      unfold lastWriteAt
      rw [List.filterMap_cons]
      cases hw : rowWriteOf cvs id_map i vid with
      | none =>
          rw [show rowStepRef cvs id_map i d vid = d by unfold rowStepRef; rw [hw]]
      | some kv =>
          rw [show rowStepRef cvs id_map i d vid = pySetKey d kv.1 kv.2 by
                unfold rowStepRef; rw [hw],
              List.filter_cons]
          by_cases hk : pyKeyEq kv.1 k
          · rw [if_pos (by simpa using hk), getLast?_cons_or, optionMap_or, Option.or_assoc]
            have hg : pyGet (pySetKey d kv.1 kv.2) k = some kv.2 := by
              rw [pyGet_pySetKey,
                  if_pos ((pyKeyEq_iff k kv.1).mpr (((pyKeyEq_iff kv.1 k).mp hk).symm))]
            rw [hg]
            rfl
          · rw [if_neg (by simpa using hk)]
            have hg : pyGet (pySetKey d kv.1 kv.2) k = pyGet d k := by
              rw [pyGet_pySetKey,
                  if_neg (fun hh => hk ((pyKeyEq_iff kv.1 k).mpr (((pyKeyEq_iff k kv.1).mp hh).symm)))]
            rw [hg]

theorem pyGet_buildRowRef (cvs : List JObj) (id_map : IdMap) (i : Nat)
    (uvids : List String) (k : JVal) :
    pyGet (buildRowRef cvs id_map uvids i) k = lastWriteAt cvs id_map i uvids k := by
  rw [show buildRowRef cvs id_map uvids i = uvids.foldl (rowStepRef cvs id_map i) [] from rfl,
      foldl_rowStepRef_get, show pyGet [] k = none from rfl, Option.or_none]

/-! ### Characterization of the distinct column identifiers -/

theorem filter_comm {α : Type} (p q : α → Bool) (l : List α) :
    (l.filter p).filter q = (l.filter q).filter p := by
  rw [List.filter_filter, List.filter_filter]
  exact List.filter_congr (fun x _ => Bool.and_comm (q x) (p x))

theorem filter_idem {α : Type} (p : α → Bool) (l : List α) :
    (l.filter p).filter p = l.filter p := by
  rw [List.filter_filter]
  exact List.filter_congr (fun x _ => Bool.and_self (p x))

theorem dedupFirstStr_filter_ne (a : String) :
    ∀ l : List String,
      dedupFirstStr (l.filter (fun x => x ≠ a)) = (dedupFirstStr l).filter (fun x => x ≠ a)
  | [] => rfl
  | s :: rest => by
      by_cases hs : s = a
      · rw [List.filter_cons, if_neg (by simp [hs]),
            show dedupFirstStr (s :: rest) = s :: (dedupFirstStr rest).filter (fun x => x ≠ s) from rfl,
            List.filter_cons, if_neg (by simp [hs]), dedupFirstStr_filter_ne a rest, hs,
            filter_idem]
      · rw [List.filter_cons, if_pos (by simp [hs]),
            show dedupFirstStr (s :: List.filter (fun x => x ≠ a) rest)
              = s :: (dedupFirstStr (rest.filter (fun x => x ≠ a))).filter (fun x => x ≠ s) from rfl,
            dedupFirstStr_filter_ne a rest,
            show dedupFirstStr (s :: rest) = s :: (dedupFirstStr rest).filter (fun x => x ≠ s) from rfl,
            List.filter_cons, if_pos (by simp [hs]), filter_comm]

theorem mem_dedupFirstStr (a : String) :
    ∀ l : List String, a ∈ dedupFirstStr l ↔ a ∈ l
  | [] => Iff.rfl
  | s :: rest => by
      by_cases hs : a = s
      · simp [dedupFirstStr, hs]
      · simp only [dedupFirstStr, List.mem_cons, List.mem_filter,
          mem_dedupFirstStr a rest]
        simp [hs]

theorem nodup_dedupFirstStr : ∀ l : List String, (dedupFirstStr l).Nodup
  | [] => List.nodup_nil
  | s :: rest => by
      rw [show dedupFirstStr (s :: rest) = s :: (dedupFirstStr rest).filter (fun x => x ≠ s) from rfl]
      refine List.Nodup.cons ?_ ((nodup_dedupFirstStr rest).filter _)
      intro hmem
      rcases List.mem_filter.mp hmem with ⟨_, hne⟩
      simp at hne

theorem uniqueVidsOf_foldl (cvs : List JObj) :
    ∀ acc : List String,
      cvs.foldl (fun acc cv =>
        if entryVid cv ∉ acc ∧ entryVid cv ≠ "None" then acc ++ [entryVid cv] else acc) acc
      = acc ++ dedupFirstStr ((cvs.map entryVid).filter (fun s => s ≠ "None" ∧ s ∉ acc)) := by
  induction cvs with
  | nil => intro acc; simp [dedupFirstStr]
  | cons cv rest ih =>
      intro acc
      rw [List.foldl_cons, List.map_cons, List.filter_cons]
      by_cases hc : entryVid cv ∉ acc ∧ entryVid cv ≠ "None"
      · rw [if_pos hc, if_pos (by simp [hc.1, hc.2]), ih (acc ++ [entryVid cv]),
            show dedupFirstStr (entryVid cv :: (rest.map entryVid).filter (fun s => s ≠ "None" ∧ s ∉ acc))
              = entryVid cv ::
                (dedupFirstStr ((rest.map entryVid).filter (fun s => s ≠ "None" ∧ s ∉ acc))).filter
                  (fun x => x ≠ entryVid cv) from rfl,
            List.append_assoc]
        congr 1
        rw [List.cons_append, List.nil_append]
        congr 1
        rw [← dedupFirstStr_filter_ne, List.filter_filter]
        congr 1
        apply List.filter_congr
        intro x _
        rw [← Bool.decide_and]
        apply decide_eq_decide.mpr
        constructor
        · rintro ⟨h2, h3⟩
          refine ⟨?_, h2, fun hm => h3 (List.mem_append.mpr (Or.inl hm))⟩
          intro hx
          exact h3 (List.mem_append.mpr (Or.inr (by simp [hx])))
        · rintro ⟨h1, h2, h3⟩
          refine ⟨h2, ?_⟩
          intro hm
          rcases List.mem_append.mp hm with hm | hm
          · exact h3 hm
          · exact h1 (by simpa using hm)
      · rw [if_neg hc, if_neg (by
            intro hcontra
            rcases of_decide_eq_true hcontra with ⟨hne, hnm⟩
            exact hc ⟨hnm, hne⟩), ih acc]

theorem uniqueVidsOf_eq (cvs : List JObj) :
    uniqueVidsOf cvs = dedupFirstStr ((cvs.map entryVid).filter (fun s => s ≠ "None")) := by
  rw [show uniqueVidsOf cvs
        = cvs.foldl (fun acc cv =>
            if entryVid cv ∉ acc ∧ entryVid cv ≠ "None" then acc ++ [entryVid cv] else acc) []
        from rfl,
      uniqueVidsOf_foldl cvs []]
  rw [List.nil_append]
  congr 1
  apply List.filter_congr
  intro x _
  simp

theorem mem_uniqueVidsOf (v : String) (cvs : List JObj) :
    v ∈ uniqueVidsOf cvs ↔ v ≠ "None" ∧ v ∈ cvs.map entryVid := by
  rw [uniqueVidsOf_eq, mem_dedupFirstStr, List.mem_filter]
  simp [and_comm]

theorem nodup_uniqueVidsOf (cvs : List JObj) : (uniqueVidsOf cvs).Nodup := by
  rw [uniqueVidsOf_eq]
  exact nodup_dedupFirstStr _

/-! ### DataFrame and coercion lemmas -/

theorem mkDataFrame_nrows (rows : List PyDict) : (mkDataFrame rows).nrows = rows.length := rfl

theorem coerceDf_nrows (df : DataFrame) : (coerceDf df).nrows = df.nrows := rfl

theorem mkDataFrame_cols_cells (rows : List PyDict) (k : JVal) (cells : List Cell)
    (h : (k, cells) ∈ (mkDataFrame rows).cols) :
    cells = rows.map (fun r => cellOf (pyGet r k)) := by
  rcases List.mem_map.mp h with ⟨a, _, ha⟩
  obtain ⟨rfl, rfl⟩ : a = k ∧ (rows.map (fun r => cellOf (pyGet r a))) = cells := by
    constructor <;> cases ha <;> rfl
  rfl

theorem coerceDf_cols_mem (df : DataFrame) (k : JVal) (cells : List Cell)
    (h : (k, cells) ∈ (coerceDf df).cols) :
    ∃ c0, (k, c0) ∈ df.cols ∧ cells = coerceColumn c0 := by
  rcases List.mem_map.mp h with ⟨p, hp, hpe⟩
  refine ⟨p.2, ?_, ?_⟩
  · obtain rfl : p.1 = k := by cases hpe; rfl
    simpa using hp
  · cases hpe
    rfl

theorem coerceColumn_na_at (cells : List Cell) (i : Nat)
    (h : cells[i]? = some Cell.na) :
    (coerceColumn cells)[i]? = some Cell.na := by
  unfold coerceColumn
  by_cases hc : cells.all (fun c => (parseCell c).isSome)
  · rw [if_pos hc, List.getElem?_map, h]
    rfl
  · rw [if_neg hc, h]

theorem coerceColumn_all_parse (cells : List Cell)
    (h : ∀ c ∈ cells, c ≠ Cell.na → (parseCell c).isSome) :
    coerceColumn cells = cells.map (fun c => (parseCell c).getD c) := by
  unfold coerceColumn
  rw [if_pos]
  rw [List.all_eq_true]
  intro c hc
  by_cases hna : c = Cell.na
  · rw [hna]
    rfl
  · exact h c hc hna

theorem coerceColumn_failed (cells : List Cell) (c : Cell)
    (hc : c ∈ cells) (h : parseCell c = none) :
    coerceColumn cells = cells := by
  unfold coerceColumn
  rw [if_neg]
  intro hall
  have := List.all_eq_true.mp hall c hc
  rw [h] at this
  exact Bool.noConfusion this

/-! ### Unfolding lemmas for extract_table -/

theorem find_t_some_ne_nil (raw : JVal) (tvid : String) (tn : JObj)
    (h : find_t raw tvid = some tn) : ¬tn.isEmpty := by
  rw [find_t_eq] at h
  have hm := List.find?_some h
  unfold vidMatches at hm
  cases hv : alistGet tn "variableId" with
  | none => rw [hv] at hm; exact Bool.noConfusion hm
  | some v =>
      intro he
      cases tn with
      | nil => exact Option.noConfusion hv
      | cons a l => exact Bool.noConfusion he

theorem extract_table_found (raw : JVal) (id_map : IdMap) (tvid : String)
    (tn : JObj) (cvs : List JObj)
    (hf : find_t raw tvid = some tn) (he : getEntriesE tn = some cvs) :
    extract_table raw id_map tvid = reconstructCore cvs id_map := by
  unfold extract_table
  simp only [hf]
  rw [if_neg (by simpa using find_t_some_ne_nil raw tvid tn hf), he]

theorem extract_table_not_found (raw : JVal) (id_map : IdMap) (tvid : String)
    (hf : find_t raw tvid = none) :
    extract_table raw id_map tvid = some emptyDF := by
  unfold extract_table
  rw [hf]

theorem reconstructCore_cons (cvs : List JObj) (id_map : IdMap)
    (v0 : String) (rest : List String) (hu : uniqueVidsOf cvs = v0 :: rest) :
    reconstructCore cvs id_map =
      (buildRowsM cvs id_map (uniqueVidsOf cvs) (List.range (occs cvs v0).length)).map
        (fun rows => coerceDf (mkDataFrame rows)) := by
  unfold reconstructCore
  rw [hu]

theorem reconstructCore_nil (cvs : List JObj) (id_map : IdMap)
    (hu : uniqueVidsOf cvs = []) : reconstructCore cvs id_map = some emptyDF := by
  unfold reconstructCore
  rw [hu]

/-! ### Bridging lemmas for the claims -/

theorem pyGet_buildRowRef_none (cvs : List JObj) (id_map : IdMap) (i : Nat)
    (uvids : List String) (k : JVal)
    (h : ∀ v ∈ uvids, (rowWriteOf cvs id_map i v).all (fun kv => !pyKeyEq kv.1 k) = true) :
    pyGet (buildRowRef cvs id_map uvids i) k = none := by
  rw [pyGet_buildRowRef]
  unfold lastWriteAt
  have hnil : (uvids.filterMap (rowWriteOf cvs id_map i)).filter (fun p => pyKeyEq p.1 k) = [] := by
    rw [List.filter_eq_nil_iff]
    intro p hp
    rcases List.mem_filterMap.mp hp with ⟨v, hv, hw⟩
    have hall := h v hv
    rw [hw] at hall
    have hfalse : pyKeyEq p.1 k = false := by
      cases hb : pyKeyEq p.1 k
      · rfl
      · rw [show Option.all (fun kv => !pyKeyEq kv.1 k) (some p) = !pyKeyEq p.1 k from rfl,
            hb] at hall
        exact Bool.noConfusion hall
    simp [hfalse]
  rw [hnil]
  rfl

theorem pyGet_buildRowRef_last_writer (cvs : List JObj) (id_map : IdMap) (i : Nat)
    (l1 l2 : List String) (v : String) (kv : JVal × JVal) (k : JVal)
    (hw : rowWriteOf cvs id_map i v = some kv)
    (hkv : pyKeyEq kv.1 k = true)
    (hafter : ∀ w ∈ l2, (rowWriteOf cvs id_map i w).all (fun q => !pyKeyEq q.1 k) = true) :
    pyGet (buildRowRef cvs id_map (l1 ++ v :: l2) i) k = some kv.2 := by
  rw [pyGet_buildRowRef]
  unfold lastWriteAt
  rw [List.filterMap_append, List.filterMap_cons, hw, List.filter_append, List.filter_cons]
  rw [if_pos (by simpa using hkv)]
  have hnil : (l2.filterMap (rowWriteOf cvs id_map i)).filter (fun p => pyKeyEq p.1 k) = [] := by
    rw [List.filter_eq_nil_iff]
    intro p hp
    rcases List.mem_filterMap.mp hp with ⟨w, hwm, hww⟩
    have hall := hafter w hwm
    rw [hww] at hall
    have hfalse : pyKeyEq p.1 k = false := by
      cases hb : pyKeyEq p.1 k
      · rfl
      · rw [show Option.all (fun q => !pyKeyEq q.1 k) (some p) = !pyKeyEq p.1 k from rfl,
            hb] at hall
        exact Bool.noConfusion hall
    simp [hfalse]
  rw [hnil, List.getLast?_concat]
  rfl

theorem buildRowGo_congr (cvsA cvsB : List JObj) (id_map : IdMap) (i : Nat) :
    ∀ (uvids : List String) (d : PyDict),
      (∀ vid ∈ uvids, ∀ d2 : PyDict,
          rowStep cvsA id_map i d2 vid = rowStep cvsB id_map i d2 vid) →
      buildRowGo cvsA id_map i d uvids = buildRowGo cvsB id_map i d uvids
  | [], _, _ => rfl
  | vid :: rest, d, h => by
      show (match rowStep cvsA id_map i d vid with
            | some d2 => buildRowGo cvsA id_map i d2 rest
            | none => none)
        = (match rowStep cvsB id_map i d vid with
            | some d2 => buildRowGo cvsB id_map i d2 rest
            | none => none)
      rw [h vid (by simp) d]
      cases rowStep cvsB id_map i d vid with
      | none => rfl
      | some d2 =>
          exact buildRowGo_congr cvsA cvsB id_map i rest d2
            (fun w hw d3 => h w (by simp [hw]) d3)

theorem buildRowsM_congr (cvsA cvsB : List JObj) (id_map : IdMap) (uvids : List String) :
    ∀ idxs : List Nat,
      (∀ j ∈ idxs, buildRow cvsA id_map uvids j = buildRow cvsB id_map uvids j) →
      buildRowsM cvsA id_map uvids idxs = buildRowsM cvsB id_map uvids idxs
  | [], _ => rfl
  | j :: rest, h => by
      show (match buildRow cvsA id_map uvids j with
            | some r => (buildRowsM cvsA id_map uvids rest).map (r :: ·)
            | none => none)
        = (match buildRow cvsB id_map uvids j with
            | some r => (buildRowsM cvsB id_map uvids rest).map (r :: ·)
            | none => none)
      rw [h j (by simp)]
      cases buildRow cvsB id_map uvids j with
      | none => rfl
      | some r =>
          rw [buildRowsM_congr cvsA cvsB id_map uvids rest
            (fun j2 hj2 => h j2 (by simp [hj2]))]

theorem build_id_map_lookup_ne_nil (raw : JVal) (k : String) (node : JObj)
    (h : alistGet (build_id_map raw) k = some node) : ¬node.isEmpty := by
  rw [build_id_map_get] at h
  unfold lastIdRec at h
  have hmem := List.mem_of_mem_getLast? h
  rcases List.mem_filter.mp hmem with ⟨_, hid⟩
  have hid2 : idKeyOf node = some k := of_decide_eq_true hid
  unfold idKeyOf at hid2
  cases node with
  | nil => simp [alistGet] at hid2
  | cons a l => simp [List.isEmpty]

theorem getColGo_eq (substring : String) :
    ∀ cols : List (JVal × List Cell),
      getColGo substring cols
        = (cols.find? (fun p => strInCI substring (pyStr p.1))).map Prod.fst
  | [] => rfl
  | (k, cs) :: rest => by
      by_cases h : strInCI substring (pyStr k)
      · rw [show getColGo substring ((k, cs) :: rest)
              = (if strInCI substring (pyStr k) then some k else getColGo substring rest)
            from rfl,
            if_pos h, List.find?_cons_of_pos _ (by simpa using h)]
        rfl
      · rw [show getColGo substring ((k, cs) :: rest)
              = (if strInCI substring (pyStr k) then some k else getColGo substring rest)
            from rfl,
            if_neg h, List.find?_cons_of_neg _ (by simpa using h)]
        exact getColGo_eq substring rest

/-! ### Claim theorems -/

/-- C5: for every payload, the index built by `build_id_map` maps each
identifier string `k` to the last record, in visit (pre-)order, whose
`id` key is present and stringifies to `k` (last write wins); in
particular it holds an entry for every reachable record carrying an `id`
and no entry that does not arise from such a record, and the traversal is
total (non-record, non-list values are skipped, never an error). -/
theorem claim_C5 (raw : JVal) (k : String) :
    alistGet (build_id_map raw) k
      = ((recordsOf raw).filter (fun f => idKeyOf f = some k)).getLast? :=
  build_id_map_get raw k

/-- C4 counterexample: the claim says the locator returns the first
pre-order record whose `variableId`, converted to string, equals the
requested identifier.  On the payload `{"variableId": null}` with request
`"None"`, the stringified field is `"None"` and the spec-side locator
returns the record, but the source's `vid is not None` guard makes
`find_t` return the NotFound sentinel instead. -/
theorem claim_C4_counterexample :
    specFindTable cexNullVid "None" = some [("variableId", JVal.null)] ∧
    find_t cexNullVid "None" = none := by decide

/-- C4 (amended): the table locator returns the first record in pre-order
depth-first traversal whose `variableId` field is present with a non-null
value whose string form equals the requested identifier; if no record
matches, it returns the NotFound sentinel and the caller degrades to an
empty dataset rather than raising. -/
theorem claim_C4 (raw : JVal) (tvid : String) :
    find_t raw tvid = (recordsOf raw).find? (vidMatches tvid) ∧
    (find_t raw tvid = none → ∀ id_map : IdMap, extract_table raw id_map tvid = some emptyDF) :=
  ⟨find_t_eq raw tvid, fun h id_map => extract_table_not_found raw id_map tvid h⟩

theorem claim_C4_witness :
    find_t (JVal.jstr "noTables") "20254" = none ∧
    extract_table (JVal.jstr "noTables") [] "20254" = some emptyDF :=
  ⟨by decide, (claim_C4 (JVal.jstr "noTables") "20254").2 (by decide) []⟩

/-- C3: the table's positional columns (`unique_vids`) are exactly the
distinct stringified variable identifiers of the `childValues` entries in
first-occurrence order with the literal absent marker `"None"` excluded;
and whenever the table node is not found, its `childValues` list is
absent or empty, or no distinct identifier survives the exclusion, the
extraction returns the empty dataset (zero rows, zero columns) as a valid
value rather than an error. -/
theorem claim_C3 (cvs : List JObj) (raw : JVal) (id_map : IdMap) (tvid : String) (tn : JObj) :
    uniqueVidsOf cvs = dedupFirstStr ((cvs.map entryVid).filter (fun s => s ≠ "None")) ∧
    emptyDF.nrows = 0 ∧ emptyDF.cols = [] ∧
    (find_t raw tvid = none → extract_table raw id_map tvid = some emptyDF) ∧
    (find_t raw tvid = some tn → getEntriesE tn = some [] →
        extract_table raw id_map tvid = some emptyDF) ∧
    (find_t raw tvid = some tn → getEntriesE tn = some cvs → uniqueVidsOf cvs = [] →
        extract_table raw id_map tvid = some emptyDF) := by
  refine ⟨uniqueVidsOf_eq cvs, rfl, rfl,
    fun h => extract_table_not_found raw id_map tvid h, ?_, ?_⟩
  · intro hf he
    rw [extract_table_found raw id_map tvid tn [] hf he, reconstructCore_nil [] id_map rfl]
  · intro hf he hu
    rw [extract_table_found raw id_map tvid tn cvs hf he, reconstructCore_nil cvs id_map hu]

theorem claim_C3_witness :
    extract_table (JVal.jstr "empty") [] "20254" = some emptyDF ∧
    extract_table (JVal.obj [("variableId", JVal.jnum 20254)]) [] "20254" = some emptyDF ∧
    extract_table (JVal.obj [("variableId", JVal.jnum 20254),
        ("childValues", JVal.arr [JVal.obj [("valueId", JVal.jnum 5)]])]) [] "20254"
      = some emptyDF :=
  ⟨(claim_C3 [] (JVal.jstr "empty") [] "20254" []).2.2.2.1 (by decide),
   (claim_C3 [] (JVal.obj [("variableId", JVal.jnum 20254)]) [] "20254"
       [("variableId", JVal.jnum 20254)]).2.2.2.2.1 (by decide) (by decide),
   (claim_C3 [[("valueId", JVal.jnum 5)]]
       (JVal.obj [("variableId", JVal.jnum 20254),
         ("childValues", JVal.arr [JVal.obj [("valueId", JVal.jnum 5)]])]) [] "20254"
       [("variableId", JVal.jnum 20254),
         ("childValues", JVal.arr [JVal.obj [("valueId", JVal.jnum 5)]])]).2.2.2.2.2
     (by decide) (by decide) (by decide)⟩

/-- C1: when a table is located, its entries are well-shaped and every
column key the rows resolve is hashable (so the row loop completes
instead of raising), the reconstructed dataset's row count equals the
number of `childValues` entries whose stringified identifier equals the
first distinct identifier (first-occurrence order, absent marker
excluded); and a column whose occurrence count is at most a row index
writes nothing at that row (`rowWriteOf … = none`), so at any row index
where no identifier writes a key identical to a given column key the
dataset's cell is missing — absent, not zero and not null. -/
theorem claim_C1 (raw : JVal) (id_map : IdMap) (tvid : String) (tn : JObj)
    (cvs : List JObj) (v0 : String) (rest : List String)
    (hf : find_t raw tvid = some tn)
    (he : getEntriesE tn = some cvs)
    (hu : uniqueVidsOf cvs = v0 :: rest)
    (hkeys : ∀ i < (occs cvs v0).length,
      ∀ p ∈ (uniqueVidsOf cvs).filterMap (rowWriteOf cvs id_map i), hashable p.1) :
    ∃ df : DataFrame,
      extract_table raw id_map tvid = some df ∧
      df.nrows = (occs cvs v0).length ∧
      (∀ (v : String) (i : Nat), (occs cvs v).length ≤ i →
        rowWriteOf cvs id_map i v = none) ∧
      (∀ (i : Nat) (k : JVal) (cells : List Cell),
        i < (occs cvs v0).length → (k, cells) ∈ df.cols →
        (∀ v ∈ uniqueVidsOf cvs,
          (rowWriteOf cvs id_map i v).all (fun kv => !pyKeyEq kv.1 k) = true) →
        cells[i]? = some Cell.na) := by
  have hrows : buildRowsM cvs id_map (uniqueVidsOf cvs) (List.range (occs cvs v0).length)
      = some ((List.range (occs cvs v0).length).map (buildRowRef cvs id_map (uniqueVidsOf cvs))) :=
    buildRowsM_some cvs id_map (uniqueVidsOf cvs) _ (fun i hi => hkeys i (List.mem_range.mp hi))
  refine ⟨coerceDf (mkDataFrame ((List.range (occs cvs v0).length).map
      (buildRowRef cvs id_map (uniqueVidsOf cvs)))), ?_, ?_, ?_, ?_⟩
  · rw [extract_table_found raw id_map tvid tn cvs hf he,
        reconstructCore_cons cvs id_map v0 rest hu, hrows]
    rfl
  · rw [coerceDf_nrows, mkDataFrame_nrows, List.length_map, List.length_range]
  · intro v i hlen
    unfold rowWriteOf
    rw [List.getElem?_eq_none hlen]
  · intro i k cells hi hmem hnow
    rcases coerceDf_cols_mem _ k cells hmem with ⟨c0, hc0, rfl⟩
    have hc0e := mkDataFrame_cols_cells _ k c0 hc0
    apply coerceColumn_na_at
    rw [hc0e, List.getElem?_map, List.getElem?_map, List.getElem?_range hi]
    show some (cellOf (pyGet (buildRowRef cvs id_map (uniqueVidsOf cvs) i) k)) = some Cell.na
    rw [pyGet_buildRowRef_none cvs id_map i (uniqueVidsOf cvs) k hnow]
    rfl

theorem claim_C1_witness :
    ∃ df : DataFrame,
      extract_table wPayload (build_id_map wPayload) "20254" = some df ∧
      df.nrows = 3 ∧
      ∀ cells : List Cell, (JVal.jstr "102", cells) ∈ df.cols → cells[2]? = some Cell.na := by
  obtain ⟨df, h1, h2, _, h4⟩ := claim_C1 wPayload (build_id_map wPayload) "20254"
    wTableFields wEntries "101" ["102"] (by decide) (by decide) (by decide) (by decide)
  refine ⟨df, h1, ?_, ?_⟩
  · rw [h2]
    decide
  · intro cells hmem
    exact h4 2 (JVal.jstr "102") cells (by decide) hmem (by decide)

/-- C2: for a row index and a distinct identifier of the table, when the
identifier's occurrence list has an `i`-th entry whose `valueId`
stringifies to a key of the index built by `build_id_map`, and the row
loop completes (every resolved column key of the row is hashable), the
assembled row maps the resolved column name to the indexed node's `value`
field (provided no later identifier overwrites a key identical to that
name); when the occurrence list is shorter or the `valueId` is not in the
index, the identifier writes nothing at that row and any column key
nobody writes is absent from the completed row — no error is raised on
these paths. -/
theorem claim_C2 (raw : JVal) (id_map : IdMap) (cvs : List JObj) (i : Nat) (v : String)
    (hmap : id_map = build_id_map raw)
    (hv : v ∈ uniqueVidsOf cvs) :
    (∀ e node : JObj,
        (occs cvs v)[i]? = some e →
        resolveNode id_map e = some node →
        (∀ p ∈ (uniqueVidsOf cvs).filterMap (rowWriteOf cvs id_map i), hashable p.1) →
        (∀ w ∈ uniqueVidsOf cvs, w ≠ v →
            (rowWriteOf cvs id_map i w).all
              (fun kv => !pyKeyEq kv.1 (colKeyOf node v)) = true) →
        ∃ row : PyDict,
          buildRow cvs id_map (uniqueVidsOf cvs) i = some row ∧
          pyGet row (colKeyOf node v) = some (valueOfNode node)) ∧
    ((occs cvs v)[i]? = none → rowWriteOf cvs id_map i v = none) ∧
    (∀ e : JObj, (occs cvs v)[i]? = some e → resolveNode id_map e = none →
        rowWriteOf cvs id_map i v = none) ∧
    (∀ k : JVal,
        (∀ p ∈ (uniqueVidsOf cvs).filterMap (rowWriteOf cvs id_map i), hashable p.1) →
        (∀ w ∈ uniqueVidsOf cvs,
            (rowWriteOf cvs id_map i w).all (fun kv => !pyKeyEq kv.1 k) = true) →
        ∃ row : PyDict,
          buildRow cvs id_map (uniqueVidsOf cvs) i = some row ∧ pyGet row k = none) := by
  refine ⟨?_, ?_, ?_, ?_⟩
  · intro e node he hres hall hno
    have hne : ¬node.isEmpty := by
      apply build_id_map_lookup_ne_nil raw _ node
      rw [← hmap]
      exact hres
    have hw : rowWriteOf cvs id_map i v = some (colKeyOf node v, valueOfNode node) := by
      unfold rowWriteOf
      simp only [he, hres]
      rw [if_neg hne]
    rcases List.append_of_mem hv with ⟨l1, l2, hsplit⟩
    have hnd := nodup_uniqueVidsOf cvs
    rw [hsplit] at hnd
    have hvl2 : v ∉ l2 := (List.nodup_cons.mp (List.Nodup.of_append_right hnd)).1
    refine ⟨buildRowRef cvs id_map (uniqueVidsOf cvs) i,
      buildRow_some cvs id_map (uniqueVidsOf cvs) i hall, ?_⟩
    rw [hsplit]
    apply pyGet_buildRowRef_last_writer cvs id_map i l1 l2 v
      (colKeyOf node v, valueOfNode node) (colKeyOf node v) hw (pyKeyEq_refl _)
    intro w hw2
    have hwv : w ≠ v := fun hh => hvl2 (hh ▸ hw2)
    exact hno w (by rw [hsplit]; simp [hw2]) hwv
  · intro h
    unfold rowWriteOf
    rw [h]
  · intro e he hres
    unfold rowWriteOf
    simp only [he, hres]
  · intro k hall hno
    exact ⟨buildRowRef cvs id_map (uniqueVidsOf cvs) i,
      buildRow_some cvs id_map (uniqueVidsOf cvs) i hall,
      pyGet_buildRowRef_none cvs id_map i (uniqueVidsOf cvs) k hno⟩

theorem claim_C2_witness :
    (∃ row : PyDict,
      buildRow wEntries (build_id_map wPayload) (uniqueVidsOf wEntries) 1 = some row ∧
      pyGet row (JVal.jstr "A") = some (JVal.jstr "a2")) ∧
    rowWriteOf wEntries (build_id_map wPayload) 3 "101" = none := by
  constructor
  · exact (claim_C2 wPayload (build_id_map wPayload) wEntries 1 "101" rfl (by decide)).1
      (wCvF 101 2)
      [("id", JVal.jnum 2), ("variableName", JVal.jstr "A"), ("value", JVal.jstr "a2")]
      (by decide) (by decide) (by decide) (by decide)
  · exact (claim_C2 wPayload (build_id_map wPayload) wEntries 3 "101" rfl
      (by decide)).2.1 (by decide)

/-- C6: a cell's column key is the resolved value-node's `variableName`
when that field holds a non-empty string, and falls back to the raw
variable-identifier string when the field is absent, null or the empty
string; and two columns only ever collide when their keys are identical
under Python dict key identity (`pyKeyEq`, which equates `True` with `1`),
in which case the later identifier's value overwrites the earlier one —
the documented duplicate-name behavior, the only way names collide. -/
theorem claim_C6 (node : JObj) (vid : String) (s : String)
    (cvs : List JObj) (id_map : IdMap) (i : Nat) :
    (alistGet node "variableName" = some (JVal.jstr s) → s ≠ "" →
        colKeyOf node vid = JVal.jstr s) ∧
    (alistGet node "variableName" = none ∨ alistGet node "variableName" = some JVal.null ∨
        alistGet node "variableName" = some (JVal.jstr "") →
        colKeyOf node vid = JVal.jstr vid) ∧
    (∀ (l1 l2 l3 : List String) (v1 v2 : String) (k1 k x1 x2 : JVal),
        rowWriteOf cvs id_map i v1 = some (k1, x1) →
        pyKeyEq k1 k = true →
        rowWriteOf cvs id_map i v2 = some (k, x2) →
        (∀ w ∈ l3, (rowWriteOf cvs id_map i w).all (fun q => !pyKeyEq q.1 k) = true) →
        (∀ p ∈ (l1 ++ v1 :: l2 ++ v2 :: l3).filterMap (rowWriteOf cvs id_map i),
            hashable p.1) →
        ∃ row : PyDict,
          buildRow cvs id_map (l1 ++ v1 :: l2 ++ v2 :: l3) i = some row ∧
          pyGet row k = some x2) := by
  refine ⟨?_, ?_, ?_⟩
  · intro hvn hs
    unfold colKeyOf
    rw [hvn]
    rw [if_pos (by simp [Option.getD, pyTruthy, hs])]
    rfl
  · intro hcase
    unfold colKeyOf
    rcases hcase with hvn | hvn | hvn <;> rw [hvn]
    · rw [if_neg (by decide)]
    · rw [if_neg (by decide)]
    · rw [if_neg (by decide)]
  · intro l1 l2 l3 v1 v2 k1 k x1 x2 hw1 hk1 hw2 hafter hall
    refine ⟨buildRowRef cvs id_map (l1 ++ v1 :: l2 ++ v2 :: l3) i,
      buildRow_some cvs id_map (l1 ++ v1 :: l2 ++ v2 :: l3) i hall, ?_⟩
    rw [show l1 ++ v1 :: l2 ++ v2 :: l3 = (l1 ++ v1 :: l2) ++ v2 :: l3 by simp]
    exact pyGet_buildRowRef_last_writer cvs id_map i (l1 ++ v1 :: l2) l3 v2 (k, x2) k
      hw2 (pyKeyEq_refl k) hafter

theorem claim_C6_witness :
    colKeyOf [("variableName", JVal.jstr "KVp")] "101" = JVal.jstr "KVp" ∧
    colKeyOf [("value", JVal.jnum 5)] "101" = JVal.jstr "101" ∧
    pyKeyEq (JVal.jbool true) (JVal.jnum 1) = true ∧
    (∃ row : PyDict,
      buildRow
        [[("variableId", JVal.jnum 201), ("valueId", JVal.jnum 31)],
         [("variableId", JVal.jnum 202), ("valueId", JVal.jnum 32)]]
        [("31", [("id", JVal.jnum 31), ("variableName", JVal.jbool true),
                 ("value", JVal.jstr "v1")]),
         ("32", [("id", JVal.jnum 32), ("variableName", JVal.jnum 1),
                 ("value", JVal.jstr "v2")])]
        ([] ++ "201" :: [] ++ "202" :: []) 0 = some row ∧
      pyGet row (JVal.jnum 1) = some (JVal.jstr "v2")) := by
  refine ⟨?_, ?_, by decide, ?_⟩
  · exact (claim_C6 [("variableName", JVal.jstr "KVp")] "101" "KVp" [] [] 0).1
      (by decide) (by decide)
  · exact (claim_C6 [("value", JVal.jnum 5)] "101" "x" [] [] 0).2.1 (Or.inl (by decide))
  · exact (claim_C6 [] "x" "x"
      [[("variableId", JVal.jnum 201), ("valueId", JVal.jnum 31)],
       [("variableId", JVal.jnum 202), ("valueId", JVal.jnum 32)]]
      [("31", [("id", JVal.jnum 31), ("variableName", JVal.jbool true),
               ("value", JVal.jstr "v1")]),
       ("32", [("id", JVal.jnum 32), ("variableName", JVal.jnum 1),
               ("value", JVal.jstr "v2")])]
      0).2.2 [] [] [] "201" "202" (JVal.jbool true) (JVal.jnum 1)
      (JVal.jstr "v1") (JVal.jstr "v2")
      (by decide) (by decide) (by decide) (by decide) (by decide)

/-- C7: numeric coercion is applied per column independently and never
raises: the coerced dataset keeps the row count and applies
`coerceColumn` to each column on its own; a column in which every
non-missing cell parses is replaced by its parses, while a column with
any unparseable cell is returned with every cell in its original
representation. -/
theorem claim_C7 (df : DataFrame) (cells : List Cell) :
    (coerceDf df).nrows = df.nrows ∧
    (coerceDf df).cols = df.cols.map (fun p => (p.1, coerceColumn p.2)) ∧
    ((∀ c ∈ cells, c ≠ Cell.na → (parseCell c).isSome) →
        coerceColumn cells = cells.map (fun c => (parseCell c).getD c)) ∧
    (∀ c ∈ cells, parseCell c = none → coerceColumn cells = cells) :=
  ⟨rfl, rfl, coerceColumn_all_parse cells, fun c hc h => coerceColumn_failed cells c hc h⟩

theorem claim_C7_witness :
    coerceColumn [Cell.orig (JVal.jstr "10"), Cell.orig (JVal.jstr "20"), Cell.orig (JVal.jstr "30")]
      = [Cell.numQ (mkRat 10 1), Cell.numQ (mkRat 20 1), Cell.numQ (mkRat 30 1)] ∧
    coerceColumn [Cell.orig (JVal.jstr "10"), Cell.orig (JVal.jstr "n/a"), Cell.orig (JVal.jstr "30")]
      = [Cell.orig (JVal.jstr "10"), Cell.orig (JVal.jstr "n/a"), Cell.orig (JVal.jstr "30")] := by
  constructor
  · rw [(claim_C7 emptyDF _).2.2.1 (by decide)]
    decide
  · exact (claim_C7 emptyDF _).2.2.2 (Cell.orig (JVal.jstr "n/a")) (by decide) (by decide)

/-- C8: the column resolver returns the first column, in the dataset's
column order, whose stringified name contains the fragment
case-insensitively, and the NotFound sentinel exactly when no column name
contains it; on the columns `["Nominal kVp", "Measured HVL"]` with
fragment `"kv"` it returns `"Nominal kVp"`. -/
theorem claim_C8 (df : DataFrame) (frag : String) :
    (get_col df frag = none ↔ ∀ p ∈ df.cols, strInCI frag (pyStr p.1) = false) ∧
    (∀ k : JVal, get_col df frag = some k →
        strInCI frag (pyStr k) = true ∧
        ∃ l1 p l2, df.cols = l1 ++ p :: l2 ∧ p.1 = k ∧
          ∀ q ∈ l1, strInCI frag (pyStr q.1) = false) ∧
    get_col wKvDf "kv" = some (JVal.jstr "Nominal kVp") := by
  refine ⟨?_, ?_, by decide⟩
  · rw [show get_col df frag = getColGo frag df.cols from rfl, getColGo_eq]
    constructor
    · intro h p hp
      cases hf : df.cols.find? (fun p => strInCI frag (pyStr p.1)) with
      | some q => rw [hf] at h; exact Option.noConfusion h
      | none =>
          have := List.find?_eq_none.mp hf p hp
          simpa using this
    · intro h
      rw [List.find?_eq_none.mpr (by
        intro p hp
        rw [h p hp]
        exact Bool.false_ne_true)]
      rfl
  · intro k h
    rw [show get_col df frag = getColGo frag df.cols from rfl, getColGo_eq] at h
    cases hf : df.cols.find? (fun p => strInCI frag (pyStr p.1)) with
    | none => rw [hf] at h; exact Option.noConfusion h
    | some q =>
        rw [hf] at h
        obtain rfl : q.1 = k := by injection h
        rcases (find?_first_characterization _ df.cols q).mp hf with ⟨l1, l2, hdec, hq, hl1⟩
        refine ⟨by simpa using hq, l1, q, l2, hdec, rfl, ?_⟩
        intro p hp
        have := hl1 p hp
        simpa using this

/-- C9: in the state-passing embedding, building the index returns the
payload unchanged next to the new index, and extraction returns both the
payload and the index unchanged next to its dataset — the source
functions only read these structures (all their writes go to local
accumulators), so their translations are pure and the only effect of
extraction is its returned dataset. -/
theorem claim_C9 (raw : JVal) (id_map : IdMap) (tvid : String) :
    (build_id_map_st raw).1 = raw ∧
    (build_id_map_st raw).2 = build_id_map raw ∧
    (extract_table_st raw id_map tvid).1 = (raw, id_map) ∧
    (extract_table_st raw id_map tvid).2 = extract_table raw id_map tvid :=
  ⟨rfl, rfl, rfl, rfl⟩

/-- C10: a `childValues` entry whose stringified `variableId` is the
literal `"None"` (for instance the string value `"None"`, a null value,
or an absent key) is never admitted as a column, and replacing it by any
other entry that also stringifies to `"None"` — in particular one with no
`variableId` at all — changes nothing: the distinct identifiers, every
surviving column's occurrence list, and the whole reconstructed dataset
are identical. -/
theorem claim_C10 (cvs1 cvs2 : List JObj) (e1 e2 : JObj) (id_map : IdMap)
    (h1 : entryVid e1 = "None") (h2 : entryVid e2 = "None") :
    "None" ∉ uniqueVidsOf (cvs1 ++ e1 :: cvs2) ∧
    uniqueVidsOf (cvs1 ++ e1 :: cvs2) = uniqueVidsOf (cvs1 ++ e2 :: cvs2) ∧
    (∀ v : String, v ≠ "None" →
        occs (cvs1 ++ e1 :: cvs2) v = occs (cvs1 ++ e2 :: cvs2) v) ∧
    reconstructCore (cvs1 ++ e1 :: cvs2) id_map = reconstructCore (cvs1 ++ e2 :: cvs2) id_map := by
  have hocc : ∀ v : String, v ≠ "None" →
      occs (cvs1 ++ e1 :: cvs2) v = occs (cvs1 ++ e2 :: cvs2) v := by
    intro v hv
    unfold occs
    rw [List.filter_append, List.filter_append, List.filter_cons, List.filter_cons,
        if_neg (by simp [h1]; exact fun hh => hv hh.symm),
        if_neg (by simp [h2]; exact fun hh => hv hh.symm)]
  have huv : uniqueVidsOf (cvs1 ++ e1 :: cvs2) = uniqueVidsOf (cvs1 ++ e2 :: cvs2) := by
    rw [uniqueVidsOf_eq, uniqueVidsOf_eq,
        List.map_append, List.map_append, List.map_cons, List.map_cons,
        List.filter_append, List.filter_append, List.filter_cons, List.filter_cons,
        h1, h2]
  refine ⟨?_, huv, hocc, ?_⟩
  · intro hmem
    exact ((mem_uniqueVidsOf "None" _).mp hmem).1 rfl
  · unfold reconstructCore
    rw [huv]
    cases hcase : uniqueVidsOf (cvs1 ++ e2 :: cvs2) with
    | nil => rfl
    | cons v0 rest =>
        have hne : ∀ w ∈ uniqueVidsOf (cvs1 ++ e2 :: cvs2), w ≠ "None" := by
          intro w hw
          exact ((mem_uniqueVidsOf w _).mp hw).1
        have hv0 : v0 ≠ "None" := hne v0 (by rw [hcase]; simp)
        show (buildRowsM (cvs1 ++ e1 :: cvs2) id_map (v0 :: rest)
              (List.range (occs (cvs1 ++ e1 :: cvs2) v0).length)).map
                (fun rows => coerceDf (mkDataFrame rows))
          = (buildRowsM (cvs1 ++ e2 :: cvs2) id_map (v0 :: rest)
              (List.range (occs (cvs1 ++ e2 :: cvs2) v0).length)).map
                (fun rows => coerceDf (mkDataFrame rows))
        rw [hocc v0 hv0]
        congr 1
        apply buildRowsM_congr
        intro j _
        unfold buildRow
        apply buildRowGo_congr
        intro vid hvid d2
        unfold rowStep
        rw [hocc vid (hne vid (by rw [hcase]; exact hvid))]


theorem claim_C10_witness :
    "None" ∉ uniqueVidsOf
      ([("variableId", JVal.jstr "None"), ("valueId", JVal.jnum 99)] :: wEntries) ∧
    reconstructCore
        ([("variableId", JVal.jstr "None"), ("valueId", JVal.jnum 99)] :: wEntries) []
      = reconstructCore ([("valueId", JVal.jnum 99)] :: wEntries) [] := by
  have h := claim_C10 [] wEntries
    [("variableId", JVal.jstr "None"), ("valueId", JVal.jnum 99)]
    [("valueId", JVal.jnum 99)] [] (by decide) (by decide)
  exact ⟨h.1, h.2.2.2⟩

theorem claim_C8_witness :
    strInCI "kv" (pyStr (JVal.jstr "Nominal kVp")) = true ∧
    get_col wKvDf "zzz" = none := by
  constructor
  · exact ((claim_C8 wKvDf "kv").2.1 (JVal.jstr "Nominal kVp") (by decide)).1
  · exact (claim_C8 wKvDf "zzz").1.mpr (by decide)
